import Mathlib

/-!
# Configuration loader of `pkg/cmd/config/config.go`

A shallow embedding of `newWithDefaults` and `LoadConfig` together with the
parts of their collaborators that decide what `LoadConfig` returns:

* `ioutil.ReadFile` and the YAML tokenizer/parser of `gopkg.in/yaml.v2` are
  taken as oracles (fields of `World`): the bytes of a file, the error of a
  read, and the node tree the parser builds from bytes are inputs;
* `os.IsNotExist` and the yaml.v2 decoder (`decode.go`: `unmarshal`, `scalar`,
  `mapping`, `mappingStruct`, `merge`, `sequence`; `resolve.go`: `resolve`;
  `yaml.go`: `getStructInfo`) are embedded, specialised to the three struct
  types declared in `config.go` and to untagged, alias-free nodes.

A Go `(*RunConfig, error)` result is a pair of options, `none` standing for
`nil`.
-/

namespace config

/-! ## Data model (`config.go`, lines 27-40) -/

/-- Go struct `NamespaceConfig`. -/
structure NamespaceConfig where
  Name : String
  Temporary : Bool
  AutoRemove : Bool
  deriving DecidableEq, Repr

/-- Go struct `Config`. -/
structure Config where
  Recursive : Bool
  Namespace : NamespaceConfig
  deriving DecidableEq, Repr

/-- Go struct `RunConfig`. -/
structure RunConfig where
  Config : Config
  deriving DecidableEq, Repr

/-- A declared struct field: its Go name and the key of its `yaml:"..."` tag,
when it has one. -/
structure StructField where
  Name : String
  Tag : Option String
  deriving DecidableEq, Repr

/-- Field `Config Config` of `RunConfig`, tagged `yaml:"config"`. -/
def RunConfig_Config : StructField := ⟨"Config", some "config"⟩
/-- Field `Recursive bool` of `Config`, tagged `yaml:"recursive"`. -/
def Config_Recursive : StructField := ⟨"Recursive", some "recursive"⟩
/-- Field `Namespace NamespaceConfig` of `Config`: it carries no tag. -/
def Config_Namespace : StructField := ⟨"Namespace", none⟩
/-- Field `Name string` of `NamespaceConfig`, tagged `yaml:"name"`. -/
def NamespaceConfig_Name : StructField := ⟨"Name", some "name"⟩
/-- Field `Temporary bool` of `NamespaceConfig`, tagged `yaml:"temporary"`. -/
def NamespaceConfig_Temporary : StructField := ⟨"Temporary", some "temporary"⟩
/-- Field `AutoRemove bool` of `NamespaceConfig`, tagged `yaml:"autoremove"`. -/
def NamespaceConfig_AutoRemove : StructField := ⟨"AutoRemove", some "autoremove"⟩

/-- Source function `newWithDefaults` (lines 42-50): `Name` is not set in the
composite literal, so it has Go's zero value `""`. -/
def newWithDefaults : RunConfig :=
  let ns : NamespaceConfig := { Name := "", AutoRemove := true, Temporary := false }
  let config : Config := { Recursive := true, Namespace := ns }
  { Config := config }

/-! ## Errors -/

/-- A `*os.PathError` as `ioutil.ReadFile` returns it; `Err` is the
`syscall.Errno` number. -/
structure PathError where
  Op : String
  Path : String
  Err : Nat
  deriving DecidableEq, Repr

/-- Errno `ENOENT`. -/
def ENOENT : Nat := 2
/-- Errno `EACCES`. -/
def EACCES : Nat := 13
/-- Errno `EISDIR`. -/
def EISDIR : Nat := 21

/-- Go `os.IsNotExist` on the error of a read (`none` is `nil`): the underlying
errno is `ENOENT`. -/
def IsNotExist (err : Option PathError) : Bool :=
  match err with
  | some e => e.Err == ENOENT
  | none => false

/-- Kinds of node the yaml.v2 parser builds for input without explicit tags,
anchors or aliases; statements about documents are statements about such
input. -/
inductive Node where
  /-- A scalar with its text; `implicit` is true for a plain (unquoted) scalar. -/
  | scalar (value : String) (implicit : Bool)
  /-- A mapping with its key/value children in document order. -/
  | mapping (children : List (Node × Node))
  /-- A sequence with its children in document order. -/
  | sequence (children : List Node)
  deriving Repr

/-- One entry of a `*yaml.TypeError`: the node that could not be decoded and
the Go type it was decoded into (line number and message text left out). -/
structure TError where
  node : Node
  outType : String
  deriving Repr

/-- Errors `yaml.Unmarshal` returns. -/
inductive YamlError where
  /-- The parser rejected the bytes; the message is the parser's. -/
  | parserError (msg : String)
  /-- Raised by `failWantMap`: "map merge requires map or sequence of maps as the value". -/
  | wantMap
  /-- A `*yaml.TypeError` with its entries. -/
  | typeError (errors : List TError)
  deriving Repr

/-- Values of Go's `error` interface that can reach `LoadConfig`. -/
inductive GoError where
  | path (e : PathError)
  | yaml (e : YamlError)
  deriving Repr

/-! ## The yaml.v2 decoder -/

/-- Go `strings.ToLower`, on the characters `Char.toLower` knows. -/
def ToLower (s : String) : String := ⟨s.data.map Char.toLower⟩

/-- Key under which `getStructInfo` registers a field: the tag when there is
one, else the lower-cased field name. -/
def StructField.Key (f : StructField) : String :=
  match f.Tag with
  | some tag => tag
  | none => ToLower f.Name

/-- What `resolve` makes of an untagged scalar, as far as a `bool` or `string`
target can tell. -/
inductive Resolved where
  | null
  | bool (b : Bool)
  | other
  deriving DecidableEq, Repr

/-- Entries of `resolveMapList` that resolve to `true`. -/
def boolTrueTexts : List String :=
  ["y", "Y", "yes", "Yes", "YES", "on", "On", "ON", "true", "True", "TRUE"]
/-- Entries of `resolveMapList` that resolve to `false`. -/
def boolFalseTexts : List String :=
  ["n", "N", "no", "No", "NO", "off", "Off", "OFF", "false", "False", "FALSE"]
/-- Entries of `resolveMapList` that resolve to `nil`. -/
def nullTexts : List String := ["", "~", "null", "Null", "NULL"]

/-- First lines of `decoder.scalar`: a quoted scalar is a string; a plain one
goes through `resolve`. -/
def resolveScalar (value : String) (implicit : Bool) : Resolved :=
  if !implicit then .other
  else if nullTexts.contains value then .null
  else if boolTrueTexts.contains value then .bool true
  else if boolFalseTexts.contains value then .bool false
  else .other

/-- Decoding `n` into a `bool`: new value and recorded type errors. -/
def unmarshalBool (n : Node) (out : Bool) : Bool × List TError :=
  match n with
  | .scalar value implicit =>
    match resolveScalar value implicit with
    | .null => (false, [])
    | .bool b => (b, [])
    | .other => (out, [⟨n, "bool"⟩])
  | .mapping _ => (out, [⟨n, "bool"⟩])
  | .sequence _ => (out, [⟨n, "bool"⟩])

/-- Decoding `n` into a `string`: new value, the `good` flag and recorded type
errors. -/
def unmarshalString (n : Node) (out : String) : String × Bool × List TError :=
  match n with
  | .scalar value implicit =>
    match resolveScalar value implicit with
    | .null => ("", true, [])
    | _ => (value, true, [])
  | .mapping _ => (out, false, [⟨n, "string"⟩])
  | .sequence _ => (out, false, [⟨n, "string"⟩])

/-- Go `isMerge`: a plain scalar `<<`. -/
def isMerge (n : Node) : Bool :=
  match n with
  | .scalar value implicit => value == "<<" && implicit
  | _ => false

/-- Result of decoding into a value of type `σ`: a panic caught by `handleErr`,
or the updated value with the type errors recorded on the way. -/
abbrev Dec (σ : Type) := Except YamlError (σ × List TError)

/-- One entry of `structInfo.FieldsMap`: the key and how the value node is
decoded into that field of the struct. -/
structure FieldInfo (σ : Type) where
  Key : String
  unmarshal : Node → σ → Dec σ

/-- What the decoder knows of a struct type. -/
structure StructInfo (σ : Type) where
  typeName : String
  zero : σ
  FieldsList : List (FieldInfo σ)

/-- Lookup in `FieldsMap`. -/
def StructInfo.FieldsMap {σ : Type} (info : StructInfo σ) (name : String) : Option (FieldInfo σ) :=
  info.FieldsList.find? (fun f => f.Key == name)

mutual
/-- Loop of `decoder.mappingStruct` (non-strict, no inline map) over the
key/value children. -/
def mappingStruct {σ : Type} (info : StructInfo σ) : List (Node × Node) → σ → Dec σ
  | [], out => .ok (out, [])
  | (ni, nv) :: rest, out =>
    if isMerge ni then
      match merge info nv out with
      | .error e => .error e
      | .ok (out1, t1) =>
        match mappingStruct info rest out1 with
        | .error e => .error e
        | .ok (out2, t2) => .ok (out2, t1 ++ t2)
    else
      match unmarshalString ni "" with
      | (_, false, t1) =>
        match mappingStruct info rest out with
        | .error e => .error e
        | .ok (out2, t2) => .ok (out2, t1 ++ t2)
      | (name, true, t1) =>
        match info.FieldsMap name with
        | some field =>
          match field.unmarshal nv out with
          | .error e => .error e
          | .ok (out1, t2) =>
            match mappingStruct info rest out1 with
            | .error e => .error e
            | .ok (out2, t3) => .ok (out2, t1 ++ t2 ++ t3)
        | none =>
          match mappingStruct info rest out with
          | .error e => .error e
          | .ok (out2, t2) => .ok (out2, t1 ++ t2)
/-- Go `decoder.merge` for a struct target. -/
def merge {σ : Type} (info : StructInfo σ) : Node → σ → Dec σ
  | .mapping children, out => mappingStruct info children out
  | .sequence children, out => mergeSequence info children out
  | .scalar _ _, _ => .error .wantMap
/-- Backwards loop of `decoder.merge` over a sequence: the last child is
merged first. -/
def mergeSequence {σ : Type} (info : StructInfo σ) : List Node → σ → Dec σ
  | [], out => .ok (out, [])
  | ni :: rest, out =>
    match mergeSequence info rest out with
    | .error e => .error e
    | .ok (out1, t1) =>
      match ni with
      | .mapping children =>
        match mappingStruct info children out1 with
        | .error e => .error e
        | .ok (out2, t2) => .ok (out2, t1 ++ t2)
      | _ => .error .wantMap
end

/-- Go `decoder.unmarshal` for a struct target: a null scalar resets the
struct to its zero value, any other scalar and a sequence are type errors, a
mapping goes through `mappingStruct`. -/
def unmarshalStruct {σ : Type} (info : StructInfo σ) (n : Node) (out : σ) : Dec σ :=
  match n with
  | .scalar value implicit =>
    match resolveScalar value implicit with
    | .null => .ok (info.zero, [])
    | _ => .ok (out, [⟨n, info.typeName⟩])
  | .mapping children => mappingStruct info children out
  | .sequence _ => .ok (out, [⟨n, info.typeName⟩])

/-- Decoder of a field of type `τ` inside a struct of type `σ`. -/
def fieldOf {σ τ : Type} (f : StructField) (get : σ → τ) (set : σ → τ → σ)
    (dec : Node → τ → Dec τ) : FieldInfo σ :=
  { Key := f.Key
    unmarshal := fun n out =>
      match dec n (get out) with
      | .error e => .error e
      | .ok (v, t) => .ok (set out v, t) }

/-- Struct info of `NamespaceConfig`. -/
def namespaceConfigInfo : StructInfo NamespaceConfig :=
  { typeName := "config.NamespaceConfig"
    zero := { Name := "", Temporary := false, AutoRemove := false }
    FieldsList :=
      [ fieldOf NamespaceConfig_Name (fun c => c.Name) (fun c v => { c with Name := v })
          (fun n s => .ok ((unmarshalString n s).1, (unmarshalString n s).2.2)),
        fieldOf NamespaceConfig_Temporary (fun c => c.Temporary)
          (fun c v => { c with Temporary := v }) (fun n b => .ok (unmarshalBool n b)),
        fieldOf NamespaceConfig_AutoRemove (fun c => c.AutoRemove)
          (fun c v => { c with AutoRemove := v }) (fun n b => .ok (unmarshalBool n b)) ] }

/-- Struct info of `Config`. -/
def configInfo : StructInfo Config :=
  { typeName := "config.Config"
    zero := { Recursive := false, Namespace := namespaceConfigInfo.zero }
    FieldsList :=
      [ fieldOf Config_Recursive (fun c => c.Recursive) (fun c v => { c with Recursive := v })
          (fun n b => .ok (unmarshalBool n b)),
        fieldOf Config_Namespace (fun c => c.Namespace) (fun c v => { c with Namespace := v })
          (unmarshalStruct namespaceConfigInfo) ] }

/-- Struct info of `RunConfig`. -/
def runConfigInfo : StructInfo RunConfig :=
  { typeName := "config.RunConfig"
    zero := { Config := configInfo.zero }
    FieldsList :=
      [ fieldOf RunConfig_Config (fun c => c.Config) (fun c v => { c with Config := v })
          (unmarshalStruct configInfo) ] }

/-! ## `yaml.Unmarshal` and `LoadConfig` -/

/-- The outside of `LoadConfig`: what `ioutil.ReadFile` returns for a path
(bytes and error) and what the yaml.v2 parser builds from bytes (a rejection
with its message, no document for an empty stream, or the root node of the
first document). -/
structure World where
  /-- Go `ioutil.ReadFile`: the bytes read (byte values) and the error. -/
  ReadFile : String → List Nat × Option PathError
  /-- Go `newParser(data).parse()`. -/
  parse : List Nat → Except String (Option Node)
  /-- Empty input: `newParser` replaces it by a single line break, in which the
  parser finds the end of the stream and no document. -/
  parse_empty : parse [] = .ok none

/-- Go `yaml.Unmarshal(data, out)` for `out : *RunConfig`: the error, or the
value `*out` has afterwards. (When the error is non-nil Go leaves `*out`
partly updated; `LoadConfig` drops it.) -/
def Unmarshal (parse : List Nat → Except String (Option Node)) (data : List Nat)
    (out : RunConfig) : Except YamlError RunConfig :=
  match parse data with
  | .error msg => .error (.parserError msg)
  | .ok none => .ok out
  | .ok (some node) =>
    match unmarshalStruct runConfigInfo node out with
    | .error e => .error e
    | .ok (out1, []) => .ok out1
    | .ok (_, t :: ts) => .error (.typeError (t :: ts))

/-- Source function `LoadConfig` (lines 52-62). -/
def LoadConfig (w : World) (file : String) : Option RunConfig × Option GoError :=
  let config := newWithDefaults
  match w.ReadFile file with
  | (data, err) =>
    if err.isSome && IsNotExist err then
      (some config, none)
    else
      match Unmarshal w.parse data config with
      | .error e => (none, some (.yaml e))
      | .ok config1 => (some config1, none)

/-! ## Documents: keys, values and the field-by-field overlay -/

/-- Name a mapping key decodes to (`d.unmarshal(ni, name)` in `mappingStruct`);
`none` for a key that is not a scalar. -/
def keyName (key : Node) : Option String :=
  match unmarshalString key "" with
  | (name, true, _) => some name
  | _ => none

/-- A key that corresponds to a declared field of the struct. -/
def declaredKey {σ : Type} (info : StructInfo σ) (key : Node) : Bool :=
  match keyName key with
  | some name => (info.FieldsMap name).isSome
  | none => false

/-- A scalar key, other than the merge key, that corresponds to no declared
field of the struct. -/
def ignoredKey {σ : Type} (info : StructInfo σ) (key : Node) : Bool :=
  match key with
  | .scalar _ _ => !isMerge key && !declaredKey info key
  | _ => false

/-- Children of a mapping without the entries under ignored keys. -/
def removeIgnored {σ : Type} (info : StructInfo σ) (children : List (Node × Node)) :
    List (Node × Node) :=
  children.filter (fun kv => !ignoredKey info kv.1)

/-- Children of a mapping with `f` applied to the values under `key`. -/
def mapUnder (key : String) (f : Node → Node) (children : List (Node × Node)) :
    List (Node × Node) :=
  children.map (fun kv => if keyName kv.1 = some key then (kv.1, f kv.2) else kv)

/-- A `namespace` value without its ignored keys. -/
def pruneNamespace : Node → Node
  | .mapping children => .mapping (removeIgnored namespaceConfigInfo children)
  | n => n

/-- A `config` value without its ignored keys and those of its `namespace`
values. -/
def pruneConfig : Node → Node
  | .mapping children =>
    .mapping (mapUnder Config_Namespace.Key pruneNamespace (removeIgnored configInfo children))
  | n => n

/-- A document without its ignored keys at the top level, under `config` and
under `namespace`. -/
def removeIgnoredKeys : Node → Node
  | .mapping children =>
    .mapping (mapUnder RunConfig_Config.Key pruneConfig (removeIgnored runConfigInfo children))
  | n => n

/-- Values a node gives to `key`, in document order (none when the node is
not a mapping). -/
def valuesOf (key : String) : Node → List Node
  | .mapping children =>
    children.filterMap (fun kv => if keyName kv.1 = some key then some kv.2 else none)
  | _ => []

/-- Values of the top-level key `config`. -/
def configNodes (root : Node) : List Node := valuesOf RunConfig_Config.Key root

/-- Values of the key `namespace` under `config`. -/
def namespaceNodes (root : Node) : List Node :=
  (configNodes root).flatMap (valuesOf Config_Namespace.Key)

/-- Boolean a document value stands for. -/
def asBool : Node → Bool
  | .scalar value implicit => resolveScalar value implicit == .bool true
  | _ => false

/-- String a document value stands for: the text of a scalar, `""` for null. -/
def asString : Node → String
  | .scalar value implicit =>
    match resolveScalar value implicit with
    | .null => ""
    | _ => value
  | _ => ""

/-- Value of a field given the values the document holds for its key: the
last one, read by `f`, or `default` when the key is absent. -/
def lastOr {τ : Type} (f : Node → τ) (values : List Node) (default : τ) : τ :=
  values.foldl (fun _ v => f v) default

/-- Field-by-field overlay of a document on a record: a field whose key is
absent keeps the value of `d`, a field whose key is present takes the
document's value. -/
def overlay (root : Node) (d : RunConfig) : RunConfig :=
  { Config :=
    { Recursive :=
        lastOr asBool ((configNodes root).flatMap (valuesOf Config_Recursive.Key)) d.Config.Recursive
      Namespace :=
      { Name :=
          lastOr asString ((namespaceNodes root).flatMap (valuesOf NamespaceConfig_Name.Key))
            d.Config.Namespace.Name
        Temporary :=
          lastOr asBool ((namespaceNodes root).flatMap (valuesOf NamespaceConfig_Temporary.Key))
            d.Config.Namespace.Temporary
        AutoRemove :=
          lastOr asBool ((namespaceNodes root).flatMap (valuesOf NamespaceConfig_AutoRemove.Key))
            d.Config.Namespace.AutoRemove } } }

/-- A mapping none of whose keys is the merge key. -/
def plainMapping : Node → Bool
  | .mapping children => children.all (fun kv => !isMerge kv.1)
  | _ => false

/-- The document, every value of `config` and every value of `namespace`
under it are mappings without merge keys. -/
def plainStructure (root : Node) : Bool :=
  plainMapping root && (configNodes root).all plainMapping &&
    (namespaceNodes root).all plainMapping

/-- Decoding a list of nodes one after the other into the same target. -/
def decodeAll {τ : Type} (dec : Node → τ → Dec τ) : List Node → τ → Dec τ
  | [], out => .ok (out, [])
  | v :: vs, out =>
    match dec v out with
    | .error e => .error e
    | .ok (out1, t1) =>
      match decodeAll dec vs out1 with
      | .error e => .error e
      | .ok (out2, t2) => .ok (out2, t1 ++ t2)

/-- A mapping all of whose keys are scalars other than the merge key. -/
def scalarKeys : Node → Bool
  | .mapping children => children.all (fun kv => !isMerge kv.1 && (keyName kv.1).isSome)
  | _ => false

/-- A `config` value that is a mapping with scalar keys other than the merge
key and sets neither `recursive` nor `namespace`. -/
def flatConfig (c : Node) : Bool :=
  scalarKeys c && (valuesOf Config_Recursive.Key c).isEmpty &&
    (valuesOf Config_Namespace.Key c).isEmpty

/-- A document that is a mapping with scalar keys other than the merge key
and all of whose `config` values are `flatConfig`. -/
def flatDocument (root : Node) : Bool :=
  scalarKeys root && (configNodes root).all flatConfig

/-! ## Concrete worlds -/

/-- Byte values of an ASCII text. -/
def bytesOf (text : String) : List Nat := text.data.map Char.toNat

/-- A plain (unquoted) scalar. -/
def plain (text : String) : Node := .scalar text true

/-- A double-quoted scalar. -/
def quoted (text : String) : Node := .scalar text false

/-- A parser oracle given by a finite table from file contents to root nodes;
contents outside the table are rejected. -/
def tableParse (table : List (List Nat × Node)) (data : List Nat) : Except String (Option Node) :=
  if data = [] then .ok none
  else
    match table.lookup data with
    | some node => .ok (some node)
    | none => .error "yaml: did not find expected node content"

/-- A world given by finite tables: `files` lists what a read of each path
returns (a path outside it does not exist), `table` what the parser builds. -/
def tableWorld (files : List (String × (List Nat × Option PathError)))
    (table : List (List Nat × Node)) : World :=
  { ReadFile := fun file =>
      match files.lookup file with
      | some r => r
      | none => ([], some ⟨"open", file, ENOENT⟩)
    parse := tableParse table
    parse_empty := rfl }

/-- Text of a file with the namespace settings nested under `namespace`. -/
def nestedText : String :=
  "config:\n  namespace:\n    name: \"foo\"\n    temporary: true\n    autoremove: false\n"

/-- Node tree of `nestedText`. -/
def nestedDoc : Node :=
  .mapping [(plain "config", .mapping [(plain "namespace",
    .mapping [(plain "name", quoted "foo"), (plain "temporary", plain "true"),
      (plain "autoremove", plain "false")])])]

/-- Text of a file with the namespace settings directly under `config`. -/
def flatText : String :=
  "config:\n  name: \"foo\"\n  temporary: true\n  autoremove: false\n"

/-- Node tree of a file with three values directly under `config`. -/
def flatDoc (name temporary autoremove : Node) : Node :=
  .mapping [(plain "config",
    .mapping [(plain "name", name), (plain "temporary", temporary),
      (plain "autoremove", autoremove)])]

/-- Text of a file that only switches recursion off. -/
def recursiveOffText : String := "config:\n  recursive: false\n"

/-- Node tree of `recursiveOffText`. -/
def recursiveOffDoc : Node :=
  .mapping [(plain "config", .mapping [(plain "recursive", plain "false")])]

/-- Text of a file with an unbalanced flow mapping. -/
def brokenText : String := "config: \x7brecursive: false\n"

/-- Text of a file whose `config` holds only a merge key. -/
def mergeText : String := "config:\n  <<: \x7brecursive: false\x7d\n"

/-- Node tree of `mergeText`. -/
def mergeDoc : Node :=
  .mapping [(plain "config",
    .mapping [(plain "<<", .mapping [(plain "recursive", plain "false")])])]

/-- Text of a file with an empty `config` mapping. -/
def emptyConfigText : String := "config: \x7b\x7d\n"

/-- Node tree of `emptyConfigText`. -/
def emptyConfigDoc : Node := .mapping [(plain "config", .mapping [])]

/-- Text of a file whose `config` is null. -/
def nullConfigText : String := "config: ~\n"

/-- Node tree of `nullConfigText`. -/
def nullConfigDoc : Node := .mapping [(plain "config", plain "~")]

/-- A world with a directory `/etc/yaks`, an unreadable file, seven regular
files, and nothing else. -/
def sampleWorld : World :=
  tableWorld
    [ ("/etc/yaks", ([], some ⟨"read", "/etc/yaks", EISDIR⟩)),
      ("secret.yaml", ([], some ⟨"open", "secret.yaml", EACCES⟩)),
      ("nested.yaml", (bytesOf nestedText, none)),
      ("flat.yaml", (bytesOf flatText, none)),
      ("recursive.yaml", (bytesOf recursiveOffText, none)),
      ("broken.yaml", (bytesOf brokenText, none)),
      ("merge.yaml", (bytesOf mergeText, none)),
      ("empty-config.yaml", (bytesOf emptyConfigText, none)),
      ("null-config.yaml", (bytesOf nullConfigText, none)) ]
    [ (bytesOf nestedText, nestedDoc),
      (bytesOf flatText, flatDoc (quoted "foo") (plain "true") (plain "false")),
      (bytesOf recursiveOffText, recursiveOffDoc),
      (bytesOf mergeText, mergeDoc),
      (bytesOf emptyConfigText, emptyConfigDoc),
      (bytesOf nullConfigText, nullConfigDoc) ]

/-! ## Theorems -/

/-- The key of the untagged field `Namespace` is its lower-cased name. -/
theorem Config_Namespace_Key : Config_Namespace.Key = "namespace" := by decide

/-- C5: `newWithDefaults` takes no input and is the record with
`Recursive = true`, `Namespace.AutoRemove = true`, `Namespace.Temporary = false`
and `Namespace.Name = ""`; it is a total constant, so there is no error path. -/
theorem newWithDefaults_eq :
    newWithDefaults.Config.Recursive = true ∧
    newWithDefaults.Config.Namespace.AutoRemove = true ∧
    newWithDefaults.Config.Namespace.Temporary = false ∧
    newWithDefaults.Config.Namespace.Name = "" ∧
    newWithDefaults = ⟨⟨true, ⟨"", false, true⟩⟩⟩ :=
  ⟨rfl, rfl, rfl, rfl, rfl⟩

/-- C3: when the read of the path fails with a does-not-exist error,
`LoadConfig` returns a nil error and exactly the default record. -/
theorem LoadConfig_not_exist (w : World) (file : String) (data : List Nat) (e : PathError)
    (hread : w.ReadFile file = (data, some e)) (hne : IsNotExist (some e) = true) :
    LoadConfig w file = (some ⟨⟨true, ⟨"", false, true⟩⟩⟩, none) := by
  simp [LoadConfig, hread, hne, newWithDefaults]

/-- Witness of C3: the path `missing.yaml` of `sampleWorld`. -/
theorem LoadConfig_not_exist_witness :
    sampleWorld.ReadFile "missing.yaml" = ([], some ⟨"open", "missing.yaml", ENOENT⟩) ∧
    IsNotExist (some ⟨"open", "missing.yaml", ENOENT⟩) = true ∧
    LoadConfig sampleWorld "missing.yaml" = (some ⟨⟨true, ⟨"", false, true⟩⟩⟩, none) :=
  ⟨rfl, rfl, LoadConfig_not_exist sampleWorld "missing.yaml" [] _ rfl rfl⟩

/-- C4: when the file was read and `yaml.Unmarshal` rejects its contents (a
syntax error of the parser or a type error of the decoder), `LoadConfig`
returns a nil record and that very error. -/
theorem LoadConfig_unmarshal_error (w : World) (file : String) (data : List Nat)
    (err : Option PathError) (e : YamlError)
    (hread : w.ReadFile file = (data, err)) (hne : IsNotExist err = false)
    (hrej : Unmarshal w.parse data newWithDefaults = .error e) :
    LoadConfig w file = (none, some (.yaml e)) := by
  simp [LoadConfig, hread, hne, hrej]

/-- Witness of C4: the unbalanced file `broken.yaml` of `sampleWorld`. -/
theorem LoadConfig_unmarshal_error_witness :
    sampleWorld.ReadFile "broken.yaml" = (bytesOf brokenText, none) ∧
    LoadConfig sampleWorld "broken.yaml" =
      (none, some (.yaml (.parserError "yaml: did not find expected node content"))) :=
  ⟨rfl, LoadConfig_unmarshal_error sampleWorld "broken.yaml" (bytesOf brokenText) none _
    rfl rfl rfl⟩

/-- C8: `LoadConfig` returns exactly one of a record and an error: either the
error is non-nil and the record is nil, or the error is nil and the record is
non-nil. -/
theorem LoadConfig_record_xor_error (w : World) (file : String) :
    ((LoadConfig w file).2 ≠ none ∧ (LoadConfig w file).1 = none) ∨
    ((LoadConfig w file).2 = none ∧ (LoadConfig w file).1 ≠ none) := by
  unfold LoadConfig
  rcases w.ReadFile file with ⟨data, err⟩
  dsimp only
  split
  · simp
  · split <;> simp

/-- C9: the error of `LoadConfig` is never the error of the read; when the
read outcome is not a does-not-exist error, the result is the result of
`yaml.Unmarshal` on the bytes read, on top of the default record; so a failed
read that returned no bytes gives the default record and a nil error. -/
theorem LoadConfig_drops_read_error :
    (∀ (w : World) (file : String) (pe : PathError),
      (LoadConfig w file).2 ≠ some (.path pe)) ∧
    (∀ (w : World) (file : String) (data : List Nat) (err : Option PathError),
      w.ReadFile file = (data, err) → IsNotExist err = false →
      LoadConfig w file =
        match Unmarshal w.parse data newWithDefaults with
        | .error e => (none, some (.yaml e))
        | .ok config => (some config, none)) ∧
    (∀ (w : World) (file : String) (e : PathError),
      w.ReadFile file = ([], some e) → IsNotExist (some e) = false →
      LoadConfig w file = (some newWithDefaults, none)) := by
  refine ⟨?_, ?_, ?_⟩
  · intro w file pe
    unfold LoadConfig
    rcases w.ReadFile file with ⟨data, err⟩
    dsimp only
    split
    · simp
    · split <;> simp
  · intro w file data err hread hne
    simp [LoadConfig, hread, hne]
  · intro w file e hread hne
    simp [LoadConfig, hread, hne, Unmarshal, w.parse_empty]

/-- Witness of C9: the unreadable file `secret.yaml` of `sampleWorld`. -/
theorem LoadConfig_drops_read_error_witness :
    sampleWorld.ReadFile "secret.yaml" = ([], some ⟨"open", "secret.yaml", EACCES⟩) ∧
    IsNotExist (some ⟨"open", "secret.yaml", EACCES⟩) = false ∧
    LoadConfig sampleWorld "secret.yaml" = (some newWithDefaults, none) :=
  ⟨rfl, rfl, LoadConfig_drops_read_error.2.2 sampleWorld "secret.yaml" _ rfl rfl⟩

/-- C1 (the code at the failing input): in every world where the path is a
directory, so that the read returns no bytes and the error `EISDIR`,
`LoadConfig` returns the default record and a nil error: the read error is
lost. -/
theorem LoadConfig_directory (w : World) (file : String)
    (hread : w.ReadFile file = ([], some ⟨"read", file, EISDIR⟩)) :
    LoadConfig w file = (some newWithDefaults, none) ∧
    (LoadConfig w file).2 ≠ some (.path ⟨"read", file, EISDIR⟩) ∧
    (LoadConfig w file).1 ≠ none := by
  have h : LoadConfig w file = (some newWithDefaults, none) := by
    simp [LoadConfig, hread, IsNotExist, EISDIR, ENOENT, Unmarshal, w.parse_empty]
  simp [h]

/-- Witness of C1's failing input: the directory `/etc/yaks` of `sampleWorld`. -/
theorem LoadConfig_directory_witness :
    sampleWorld.ReadFile "/etc/yaks" = ([], some ⟨"read", "/etc/yaks", EISDIR⟩) ∧
    LoadConfig sampleWorld "/etc/yaks" = (some newWithDefaults, none) :=
  ⟨rfl, (LoadConfig_directory sampleWorld "/etc/yaks" rfl).1⟩

/-- C10: the field `Namespace` of `Config` has no tag, so its key is
`namespace`; for the document
`config: { namespace: { name: "foo", temporary: true, autoremove: false } }`
`LoadConfig` succeeds with `Name = "foo"`, `Temporary = true`,
`AutoRemove = false` and `Recursive = true`. -/
theorem LoadConfig_nested_namespace (w : World) (file : String) (data : List Nat)
    (hread : w.ReadFile file = (data, none))
    (hparse : w.parse data = .ok (some nestedDoc)) :
    Config_Namespace.Tag = none ∧ Config_Namespace.Key = "namespace" ∧
    LoadConfig w file = (some ⟨⟨true, ⟨"foo", true, false⟩⟩⟩, none) := by
  refine ⟨rfl, Config_Namespace_Key, ?_⟩
  simp only [LoadConfig, hread, Unmarshal, hparse]
  rfl

/-- Witness of C10: the file `nested.yaml` of `sampleWorld`. -/
theorem LoadConfig_nested_namespace_witness :
    sampleWorld.ReadFile "nested.yaml" = (bytesOf nestedText, none) ∧
    sampleWorld.parse (bytesOf nestedText) = .ok (some nestedDoc) ∧
    LoadConfig sampleWorld "nested.yaml" = (some ⟨⟨true, ⟨"foo", true, false⟩⟩⟩, none) :=
  ⟨rfl, rfl, (LoadConfig_nested_namespace sampleWorld "nested.yaml" _ rfl rfl).2.2⟩

/-- C2 (counterexample): the file `flat.yaml` sets `name: "foo"`,
`temporary: true` and `autoremove: false` directly under `config` and does
not set `recursive`, yet `LoadConfig` returns the default record, whose
namespace name is `""`, not the record of the claim. -/
theorem LoadConfig_flat_counterexample :
    sampleWorld.ReadFile "flat.yaml" = (bytesOf flatText, none) ∧
    sampleWorld.parse (bytesOf flatText) =
      .ok (some (flatDoc (quoted "foo") (plain "true") (plain "false"))) ∧
    LoadConfig sampleWorld "flat.yaml" = (some ⟨⟨true, ⟨"", false, true⟩⟩⟩, none) ∧
    LoadConfig sampleWorld "flat.yaml" ≠ (some ⟨⟨true, ⟨"foo", true, false⟩⟩⟩, none) := by
  have h : LoadConfig sampleWorld "flat.yaml" = (some ⟨⟨true, ⟨"", false, true⟩⟩⟩, none) := rfl
  refine ⟨rfl, rfl, h, ?_⟩
  rw [h]
  simp

/-! ### One step of the `mappingStruct` loop -/

/-- Prefixing no type errors to a result leaves it unchanged. -/
theorem descend_ok {σ : Type} (r : Dec σ) :
    (match r with
      | .error e => .error e
      | .ok (out2, t2) => .ok (out2, [] ++ t2) : Dec σ) = r := by
  rcases r with e | ⟨o, t⟩ <;> simp

/-- A scalar key has a name and is decoded without type error. -/
theorem unmarshalString_of_keyName {key : Node} {name : String}
    (hk : keyName key = some name) : unmarshalString key "" = (name, true, []) := by
  cases key with
  | scalar value implicit =>
    simp only [keyName, unmarshalString] at hk ⊢
    cases hres : resolveScalar value implicit <;> simp only [hres] at hk ⊢ <;> simp_all
  | mapping cs => simp [keyName, unmarshalString] at hk
  | sequence cs => simp [keyName, unmarshalString] at hk

/-- A key without a name is a type error of the key. -/
theorem unmarshalString_of_keyName_none {key : Node}
    (hk : keyName key = none) : unmarshalString key "" = ("", false, [⟨key, "string"⟩]) := by
  cases key with
  | scalar value implicit =>
    simp only [keyName, unmarshalString] at hk
    cases hres : resolveScalar value implicit <;> simp only [hres] at hk <;> simp at hk
  | mapping cs => rfl
  | sequence cs => rfl

/-- The loop at an entry whose key names a field. -/
theorem mappingStruct_cons_field {σ : Type} (info : StructInfo σ) {key : Node} {name : String}
    (value : Node) (rest : List (Node × Node)) (out : σ) {field : FieldInfo σ}
    (hm : isMerge key = false) (hk : keyName key = some name)
    (hf : info.FieldsMap name = some field) :
    mappingStruct info ((key, value) :: rest) out =
      match field.unmarshal value out with
      | .error e => .error e
      | .ok (out1, t1) =>
        match mappingStruct info rest out1 with
        | .error e => .error e
        | .ok (out2, t2) => .ok (out2, t1 ++ t2) := by
  rw [mappingStruct]
  simp only [hm, Bool.false_eq_true, if_false, unmarshalString_of_keyName hk, hf, List.nil_append]

/-- The loop at an entry whose key names no field. -/
theorem mappingStruct_cons_unknown {σ : Type} (info : StructInfo σ) {key : Node} {name : String}
    (value : Node) (rest : List (Node × Node)) (out : σ)
    (hm : isMerge key = false) (hk : keyName key = some name)
    (hf : info.FieldsMap name = none) :
    mappingStruct info ((key, value) :: rest) out = mappingStruct info rest out := by
  rw [mappingStruct]
  simp only [hm, Bool.false_eq_true, if_false, unmarshalString_of_keyName hk, hf, descend_ok]

/-- The loop at an entry whose key is not a scalar. -/
theorem mappingStruct_cons_badkey {σ : Type} (info : StructInfo σ) {key : Node}
    (value : Node) (rest : List (Node × Node)) (out : σ)
    (hm : isMerge key = false) (hk : keyName key = none) :
    mappingStruct info ((key, value) :: rest) out =
      match mappingStruct info rest out with
      | .error e => .error e
      | .ok (out2, t2) => .ok (out2, [⟨key, "string"⟩] ++ t2) := by
  rw [mappingStruct]
  simp only [hm, Bool.false_eq_true, if_false, unmarshalString_of_keyName_none hk]

/-- The loop at a merge key. -/
theorem mappingStruct_cons_merge {σ : Type} (info : StructInfo σ) {key : Node}
    (value : Node) (rest : List (Node × Node)) (out : σ) (hm : isMerge key = true) :
    mappingStruct info ((key, value) :: rest) out =
      match merge info value out with
      | .error e => .error e
      | .ok (out1, t1) =>
        match mappingStruct info rest out1 with
        | .error e => .error e
        | .ok (out2, t2) => .ok (out2, t1 ++ t2) := by
  rw [mappingStruct]
  simp only [hm, if_true]

/-- An ignored key has a name, is not the merge key and names no field. -/
theorem ignoredKey_spec {σ : Type} (info : StructInfo σ) {key : Node}
    (h : ignoredKey info key = true) :
    isMerge key = false ∧ ∃ name, keyName key = some name ∧ info.FieldsMap name = none := by
  cases key with
  | scalar value implicit =>
    simp only [ignoredKey, Bool.and_eq_true, Bool.not_eq_true', declaredKey] at h
    obtain ⟨hm, hd⟩ := h
    refine ⟨hm, ?_⟩
    cases hk : keyName (.scalar value implicit) with
    | none =>
      simp only [keyName, unmarshalString] at hk
      cases hres : resolveScalar value implicit <;> simp only [hres] at hk <;> simp at hk
    | some name =>
      refine ⟨name, rfl, ?_⟩
      simp only [hk] at hd
      cases hf : info.FieldsMap name with
      | none => rfl
      | some f => simp [hf] at hd
  | mapping cs => simp [ignoredKey] at h
  | sequence cs => simp [ignoredKey] at h

/-- Entries under ignored keys do not change what the loop computes. -/
theorem mappingStruct_removeIgnored {σ : Type} (info : StructInfo σ)
    (children : List (Node × Node)) (out : σ) :
    mappingStruct info (removeIgnored info children) out = mappingStruct info children out := by
  induction children generalizing out with
  | nil => rfl
  | cons kv rest ih =>
    obtain ⟨k, v⟩ := kv
    by_cases h : ignoredKey info k = true
    · have hrm : removeIgnored info ((k, v) :: rest) = removeIgnored info rest := by
        simp [removeIgnored, h]
      obtain ⟨hm, name, hk, hf⟩ := ignoredKey_spec info h
      rw [hrm, ih, mappingStruct_cons_unknown info v rest out hm hk hf]
    · have hrm : removeIgnored info ((k, v) :: rest) = (k, v) :: removeIgnored info rest := by
        simp [removeIgnored, h]
      rw [hrm, mappingStruct, mappingStruct]
      simp only [ih]

/-- The merge key has the name `<<`. -/
theorem keyName_of_isMerge {key : Node} (hm : isMerge key = true) : keyName key = some "<<" := by
  cases key with
  | scalar value implicit =>
    simp only [isMerge, Bool.and_eq_true, beq_iff_eq] at hm
    obtain ⟨hv, hi⟩ := hm
    subst hv hi
    rfl
  | mapping cs => simp [isMerge] at hm
  | sequence cs => simp [isMerge] at hm

/-- Changing the values under a field key by a map the field decoder does not
see leaves the loop unchanged. -/
theorem mappingStruct_mapUnder {σ : Type} (info : StructInfo σ) (key : String) (f : Node → Node)
    (field : FieldInfo σ) (hkey : key ≠ "<<") (hf : info.FieldsMap key = some field)
    (hfield : ∀ v out, field.unmarshal (f v) out = field.unmarshal v out)
    (children : List (Node × Node)) (out : σ) :
    mappingStruct info (mapUnder key f children) out = mappingStruct info children out := by
  induction children generalizing out with
  | nil => rfl
  | cons kv rest ih =>
    obtain ⟨k, v⟩ := kv
    by_cases hk : keyName k = some key
    · have hm : isMerge k = false := by
        cases h : isMerge k with
        | false => rfl
        | true =>
          rw [keyName_of_isMerge h] at hk
          exact absurd (Option.some.inj hk).symm hkey
      have hcons : mapUnder key f ((k, v) :: rest) = (k, f v) :: mapUnder key f rest := by
        simp [mapUnder, hk]
      rw [hcons, mappingStruct_cons_field info (f v) _ out hm hk hf,
        mappingStruct_cons_field info v rest out hm hk hf, hfield]
      simp only [ih]
    · have hcons : mapUnder key f ((k, v) :: rest) = (k, v) :: mapUnder key f rest := by
        simp [mapUnder, hk]
      rw [hcons, mappingStruct, mappingStruct]
      simp only [ih]

/-- Decoding a `namespace` value does not see its ignored keys. -/
theorem unmarshalStruct_pruneNamespace (n : Node) (out : NamespaceConfig) :
    unmarshalStruct namespaceConfigInfo (pruneNamespace n) out =
      unmarshalStruct namespaceConfigInfo n out := by
  cases n with
  | scalar value implicit => rfl
  | mapping cs => simp only [pruneNamespace, unmarshalStruct, mappingStruct_removeIgnored]
  | sequence cs => rfl

/-- Decoding a `config` value does not see its ignored keys nor those of its
`namespace` values. -/
theorem unmarshalStruct_pruneConfig (n : Node) (out : Config) :
    unmarshalStruct configInfo (pruneConfig n) out = unmarshalStruct configInfo n out := by
  cases n with
  | scalar value implicit => rfl
  | mapping cs =>
    simp only [pruneConfig, unmarshalStruct]
    rw [mappingStruct_mapUnder configInfo Config_Namespace.Key pruneNamespace _ (by decide) rfl,
      mappingStruct_removeIgnored]
    intro v o
    simp only [fieldOf, unmarshalStruct_pruneNamespace]
  | sequence cs => rfl

/-- Decoding a document does not see its ignored keys. -/
theorem unmarshalStruct_removeIgnoredKeys (n : Node) (out : RunConfig) :
    unmarshalStruct runConfigInfo (removeIgnoredKeys n) out =
      unmarshalStruct runConfigInfo n out := by
  cases n with
  | scalar value implicit => rfl
  | mapping cs =>
    simp only [removeIgnoredKeys, unmarshalStruct]
    rw [mappingStruct_mapUnder runConfigInfo RunConfig_Config.Key pruneConfig _ (by decide) rfl,
      mappingStruct_removeIgnored]
    intro v o
    simp only [fieldOf, unmarshalStruct_pruneConfig]
  | sequence cs => rfl

/-- C7 (counterexample): the merge key `<<` under `config` corresponds to no
declared field of `Config`, and `empty-config.yaml` is `merge.yaml` with that
key removed; yet `LoadConfig` returns `Recursive = false` for `merge.yaml`
and `Recursive = true` for `empty-config.yaml`. -/
theorem LoadConfig_merge_key_counterexample :
    sampleWorld.ReadFile "merge.yaml" = (bytesOf mergeText, none) ∧
    sampleWorld.parse (bytesOf mergeText) = .ok (some mergeDoc) ∧
    sampleWorld.ReadFile "empty-config.yaml" = (bytesOf emptyConfigText, none) ∧
    sampleWorld.parse (bytesOf emptyConfigText) = .ok (some emptyConfigDoc) ∧
    declaredKey configInfo (plain "<<") = false ∧
    LoadConfig sampleWorld "merge.yaml" = (some ⟨⟨false, ⟨"", false, true⟩⟩⟩, none) ∧
    LoadConfig sampleWorld "empty-config.yaml" = (some ⟨⟨true, ⟨"", false, true⟩⟩⟩, none) ∧
    LoadConfig sampleWorld "merge.yaml" ≠ LoadConfig sampleWorld "empty-config.yaml" := by
  have h1 : LoadConfig sampleWorld "merge.yaml" = (some ⟨⟨false, ⟨"", false, true⟩⟩⟩, none) := rfl
  have h2 : LoadConfig sampleWorld "empty-config.yaml" =
      (some ⟨⟨true, ⟨"", false, true⟩⟩⟩, none) := rfl
  refine ⟨rfl, rfl, rfl, rfl, rfl, h1, h2, ?_⟩
  rw [h1, h2]
  simp

/-- C7 (amended): for every document without explicit tags, anchors or aliases
(the documents `Node` describes), scalar keys other than the merge key `<<`
that correspond to no declared field, at the top level, under `config` and
under `namespace`, are ignored: `LoadConfig` returns the same result, record
or error, as for the document with those keys removed. -/
theorem LoadConfig_ignores_unknown_keys (w : World) (file file' : String)
    (data data' : List Nat) (root : Node)
    (hread : w.ReadFile file = (data, none)) (hparse : w.parse data = .ok (some root))
    (hread' : w.ReadFile file' = (data', none))
    (hparse' : w.parse data' = .ok (some (removeIgnoredKeys root))) :
    LoadConfig w file = LoadConfig w file' := by
  simp only [LoadConfig, hread, hread', Unmarshal, hparse, hparse',
    unmarshalStruct_removeIgnoredKeys]

/-- Witness of C7 (amended): `flat.yaml` without its ignored keys is
`empty-config.yaml`, and both load to the same result. -/
theorem LoadConfig_ignores_unknown_keys_witness :
    removeIgnoredKeys (flatDoc (quoted "foo") (plain "true") (plain "false")) = emptyConfigDoc ∧
    LoadConfig sampleWorld "flat.yaml" = LoadConfig sampleWorld "empty-config.yaml" :=
  ⟨rfl, LoadConfig_ignores_unknown_keys sampleWorld "flat.yaml" "empty-config.yaml"
    (bytesOf flatText) (bytesOf emptyConfigText) _ rfl rfl rfl rfl⟩

/-! ### Reading a field off a successful decode -/

/-- A field decoder that succeeds decoded the value into the field and set it. -/
theorem fieldOf_unmarshal_ok {σ τ : Type} {f : StructField} {get : σ → τ} {set : σ → τ → σ}
    {dec : Node → τ → Dec τ} {v : Node} {out o : σ} {t : List TError}
    (h : (fieldOf f get set dec).unmarshal v out = .ok (o, t)) :
    ∃ x, dec v (get out) = .ok (x, t) ∧ o = set out x := by
  simp only [fieldOf] at h
  cases hd : dec v (get out) with
  | error e => simp [hd] at h
  | ok r =>
    obtain ⟨x, t'⟩ := r
    simp only [hd, Except.ok.injEq, Prod.mk.injEq] at h
    exact ⟨x, by rw [h.2], h.1.symm⟩

/-- The only key of `RunConfig` is `config`. -/
theorem runConfigInfo_FieldsMap {name : String} {fld : FieldInfo RunConfig}
    (h : runConfigInfo.FieldsMap name = some fld) :
    name = "config" ∧
      fld = fieldOf RunConfig_Config (fun c => c.Config) (fun c v => { c with Config := v })
        (unmarshalStruct configInfo) := by
  simp only [StructInfo.FieldsMap, runConfigInfo, List.find?] at h
  split at h
  · next hk =>
    simp only [fieldOf, StructField.Key, RunConfig_Config, beq_iff_eq] at hk
    exact ⟨hk.symm, (Option.some.inj h).symm⟩
  · simp at h

/-- The keys of `Config` are `recursive` and `namespace`. -/
theorem configInfo_FieldsMap {name : String} {fld : FieldInfo Config}
    (h : configInfo.FieldsMap name = some fld) :
    (name = "recursive" ∧
      fld = fieldOf Config_Recursive (fun c => c.Recursive) (fun c v => { c with Recursive := v })
        (fun n b => .ok (unmarshalBool n b))) ∨
    (name = "namespace" ∧
      fld = fieldOf Config_Namespace (fun c => c.Namespace) (fun c v => { c with Namespace := v })
        (unmarshalStruct namespaceConfigInfo)) := by
  simp only [StructInfo.FieldsMap, configInfo, List.find?] at h
  split at h
  · next hk =>
    simp only [fieldOf, StructField.Key, Config_Recursive, beq_iff_eq] at hk
    exact Or.inl ⟨hk.symm, (Option.some.inj h).symm⟩
  · split at h
    · next hk =>
      simp only [fieldOf, beq_iff_eq, Config_Namespace_Key] at hk
      exact Or.inr ⟨hk.symm, (Option.some.inj h).symm⟩
    · simp at h

/-- The keys of `NamespaceConfig` are `name`, `temporary` and `autoremove`. -/
theorem namespaceConfigInfo_FieldsMap {name : String} {fld : FieldInfo NamespaceConfig}
    (h : namespaceConfigInfo.FieldsMap name = some fld) :
    (name = "name" ∧
      fld = fieldOf NamespaceConfig_Name (fun c => c.Name) (fun c v => { c with Name := v })
        (fun n s => .ok ((unmarshalString n s).1, (unmarshalString n s).2.2))) ∨
    (name = "temporary" ∧
      fld = fieldOf NamespaceConfig_Temporary (fun c => c.Temporary)
        (fun c v => { c with Temporary := v }) (fun n b => .ok (unmarshalBool n b))) ∨
    (name = "autoremove" ∧
      fld = fieldOf NamespaceConfig_AutoRemove (fun c => c.AutoRemove)
        (fun c v => { c with AutoRemove := v }) (fun n b => .ok (unmarshalBool n b))) := by
  simp only [StructInfo.FieldsMap, namespaceConfigInfo, List.find?] at h
  split at h
  · next hk =>
    simp only [fieldOf, StructField.Key, NamespaceConfig_Name, beq_iff_eq] at hk
    exact Or.inl ⟨hk.symm, (Option.some.inj h).symm⟩
  · split at h
    · next hk =>
      simp only [fieldOf, StructField.Key, NamespaceConfig_Temporary, beq_iff_eq] at hk
      exact Or.inr (Or.inl ⟨hk.symm, (Option.some.inj h).symm⟩)
    · split at h
      · next hk =>
        simp only [fieldOf, StructField.Key, NamespaceConfig_AutoRemove, beq_iff_eq] at hk
        exact Or.inr (Or.inr ⟨hk.symm, (Option.some.inj h).symm⟩)
      · simp at h

/-- Values of a key in a mapping, entry by entry. -/
theorem valuesOf_cons (key : String) (k v : Node) (rest : List (Node × Node)) :
    valuesOf key (.mapping ((k, v) :: rest)) =
      if keyName k = some key then v :: valuesOf key (.mapping rest)
      else valuesOf key (.mapping rest) := by
  simp only [valuesOf, List.filterMap_cons]
  split <;> simp_all

/-- A successful decode of a merge-free mapping into a struct decoded, into the
field of `key`, exactly the values the mapping holds for `key`, in order. -/
theorem decodeAll_of_mappingStruct {σ τ : Type} (info : StructInfo σ) (key : String)
    (get : σ → τ) (dec : Node → τ → Dec τ)
    (hfield : info.FieldsMap key ≠ none)
    (hhit : ∀ fld v out o t, info.FieldsMap key = some fld → fld.unmarshal v out = .ok (o, t) →
      dec v (get out) = .ok (get o, t))
    (hmiss : ∀ name fld v out o t, name ≠ key → info.FieldsMap name = some fld →
      fld.unmarshal v out = .ok (o, t) → get o = get out)
    (children : List (Node × Node)) (out r : σ)
    (hplain : children.all (fun kv => !isMerge kv.1) = true)
    (h : mappingStruct info children out = .ok (r, [])) :
    decodeAll dec (valuesOf key (.mapping children)) (get out) = .ok (get r, []) := by
  induction children generalizing out with
  | nil =>
    simp only [mappingStruct, Except.ok.injEq, Prod.mk.injEq, and_true] at h
    simp [valuesOf, decodeAll, h]
  | cons kv rest ih =>
    obtain ⟨k, v⟩ := kv
    simp only [List.all_cons, Bool.and_eq_true, Bool.not_eq_true'] at hplain
    obtain ⟨hm, hrest⟩ := hplain
    rw [valuesOf_cons]
    cases hk : keyName k with
    | none =>
      rw [mappingStruct_cons_badkey info v rest out hm hk] at h
      cases hr : mappingStruct info rest out with
      | error e => simp [hr] at h
      | ok p => simp [hr] at h
    | some name =>
      cases hf : info.FieldsMap name with
      | none =>
        rw [mappingStruct_cons_unknown info v rest out hm hk hf] at h
        have hne : name ≠ key := by
          intro heq
          exact hfield (heq ▸ hf)
        have : ¬ (some name = some key) := fun hh => hne (Option.some.inj hh)
        simp only [this, if_false]
        exact ih out hrest h
      | some fld =>
        rw [mappingStruct_cons_field info v rest out hm hk hf] at h
        cases hu : fld.unmarshal v out with
        | error e => simp [hu] at h
        | ok p1 =>
          obtain ⟨o1, t1⟩ := p1
          simp only [hu] at h
          cases hr : mappingStruct info rest o1 with
          | error e => simp [hr] at h
          | ok p2 =>
            obtain ⟨o2, t2⟩ := p2
            simp only [hr, Except.ok.injEq, Prod.mk.injEq, List.append_eq_nil] at h
            obtain ⟨ho, ht1, ht2⟩ := h
            subst ho ht1 ht2
            have hih := ih o1 hrest hr
            by_cases heq : name = key
            · subst heq
              simp only [if_true]
              rw [decodeAll, hhit fld v out o1 [] hf hu]
              simp only [hih, List.append_nil]
            · have : ¬ (some name = some key) := fun hh => heq (Option.some.inj hh)
              simp only [this, if_false]
              rw [← hmiss name fld v out o1 [] heq hf hu]
              exact hih

/-- Two successful runs of `decodeAll` without type errors compose. -/
theorem decodeAll_append {τ : Type} (dec : Node → τ → Dec τ) (xs ys : List Node) (a b c : τ)
    (h1 : decodeAll dec xs a = .ok (b, [])) (h2 : decodeAll dec ys b = .ok (c, [])) :
    decodeAll dec (xs ++ ys) a = .ok (c, []) := by
  induction xs generalizing a with
  | nil =>
    simp only [decodeAll, Except.ok.injEq, Prod.mk.injEq, and_true] at h1
    subst h1
    simpa using h2
  | cons x xs ih =>
    rw [decodeAll] at h1
    cases hd : dec x a with
    | error e => simp [hd] at h1
    | ok p1 =>
      obtain ⟨o1, t1⟩ := p1
      simp only [hd] at h1
      cases hr : decodeAll dec xs o1 with
      | error e => simp [hr] at h1
      | ok p2 =>
        obtain ⟨o2, t2⟩ := p2
        simp only [hr, Except.ok.injEq, Prod.mk.injEq, List.append_eq_nil] at h1
        obtain ⟨ho, ht1, ht2⟩ := h1
        subst ho ht1 ht2
        rw [List.cons_append, decodeAll, hd]
        simp only [ih o1 hr, List.append_nil]

/-- A successful decode of a list of merge-free mappings into a struct
decoded, into the field of `key`, the values they hold for `key`, in order. -/
theorem decodeAll_flatMap {σ τ : Type} (info : StructInfo σ) (key : String)
    (get : σ → τ) (dec : Node → τ → Dec τ)
    (hfield : info.FieldsMap key ≠ none)
    (hhit : ∀ fld v out o t, info.FieldsMap key = some fld → fld.unmarshal v out = .ok (o, t) →
      dec v (get out) = .ok (get o, t))
    (hmiss : ∀ name fld v out o t, name ≠ key → info.FieldsMap name = some fld →
      fld.unmarshal v out = .ok (o, t) → get o = get out)
    (ws : List Node) (s s' : σ)
    (hplain : ws.all plainMapping = true)
    (h : decodeAll (unmarshalStruct info) ws s = .ok (s', [])) :
    decodeAll dec (ws.flatMap (valuesOf key)) (get s) = .ok (get s', []) := by
  induction ws generalizing s with
  | nil =>
    simp only [decodeAll, Except.ok.injEq, Prod.mk.injEq, and_true] at h
    simp [decodeAll, h]
  | cons w ws ih =>
    simp only [List.all_cons, Bool.and_eq_true] at hplain
    obtain ⟨hw, hws⟩ := hplain
    rw [decodeAll] at h
    cases hd : unmarshalStruct info w s with
    | error e => simp [hd] at h
    | ok p1 =>
      obtain ⟨o1, t1⟩ := p1
      simp only [hd] at h
      cases hr : decodeAll (unmarshalStruct info) ws o1 with
      | error e => simp [hr] at h
      | ok p2 =>
        obtain ⟨o2, t2⟩ := p2
        simp only [hr, Except.ok.injEq, Prod.mk.injEq, List.append_eq_nil] at h
        obtain ⟨ho, ht1, ht2⟩ := h
        subst ho ht1 ht2
        rw [List.flatMap_cons]
        refine decodeAll_append dec _ _ (get s) (get o1) (get o2) ?_ (ih o1 hws hr)
        cases w with
        | scalar value implicit => simp [plainMapping] at hw
        | sequence cs => simp [plainMapping] at hw
        | mapping cs =>
          exact decodeAll_of_mappingStruct info key get dec hfield hhit hmiss cs s o1 hw hd

/-- A `bool` decoded without type error is the boolean the node stands for. -/
theorem unmarshalBool_ok {v : Node} {b b1 : Bool} (h : unmarshalBool v b = (b1, [])) :
    b1 = asBool v := by
  cases v with
  | scalar value implicit =>
    simp only [unmarshalBool] at h
    simp only [asBool]
    cases hres : resolveScalar value implicit with
    | null => simp [hres] at h; simp [h]
    | bool c => simp [hres] at h; cases c <;> simp [← h]
    | other => simp [hres] at h
  | mapping cs => simp [unmarshalBool] at h
  | sequence cs => simp [unmarshalBool] at h

/-- A `string` decoded without type error is the string the node stands for. -/
theorem unmarshalString_ok {v : Node} {s : String}
    (h : (unmarshalString v s).2.2 = []) : (unmarshalString v s).1 = asString v := by
  cases v with
  | scalar value implicit =>
    simp only [unmarshalString, asString]
    cases hres : resolveScalar value implicit <;> rfl
  | mapping cs => simp [unmarshalString] at h
  | sequence cs => simp [unmarshalString] at h

/-- Booleans decoded one after the other without type error leave the last. -/
theorem decodeAll_bool (vs : List Node) (b b' : Bool)
    (h : decodeAll (fun n b => .ok (unmarshalBool n b)) vs b = .ok (b', [])) :
    b' = lastOr asBool vs b := by
  induction vs generalizing b with
  | nil =>
    simp only [decodeAll, Except.ok.injEq, Prod.mk.injEq, and_true] at h
    simp [lastOr, h]
  | cons v vs ih =>
    rw [decodeAll] at h
    simp only at h
    cases hr : decodeAll (fun n b => Except.ok (unmarshalBool n b)) vs (unmarshalBool v b).1 with
    | error e => simp [hr] at h
    | ok p2 =>
      obtain ⟨o2, t2⟩ := p2
      simp only [hr, Except.ok.injEq, Prod.mk.injEq, List.append_eq_nil] at h
      obtain ⟨ho, ht1, ht2⟩ := h
      subst ho ht2
      have hv : (unmarshalBool v b).1 = asBool v :=
        @unmarshalBool_ok v b _ (Prod.ext rfl ht1)
      rw [hv] at hr
      simpa [lastOr] using ih (asBool v) hr

/-- Strings decoded one after the other without type error leave the last. -/
theorem decodeAll_string (vs : List Node) (s s' : String)
    (h : decodeAll (fun n s => .ok ((unmarshalString n s).1, (unmarshalString n s).2.2)) vs s =
      .ok (s', [])) :
    s' = lastOr asString vs s := by
  induction vs generalizing s with
  | nil =>
    simp only [decodeAll, Except.ok.injEq, Prod.mk.injEq, and_true] at h
    simp [lastOr, h]
  | cons v vs ih =>
    rw [decodeAll] at h
    simp only at h
    cases hr : decodeAll (fun n s => Except.ok ((unmarshalString n s).1, (unmarshalString n s).2.2))
        vs (unmarshalString v s).1 with
    | error e => simp [hr] at h
    | ok p2 =>
      obtain ⟨o2, t2⟩ := p2
      simp only [hr, Except.ok.injEq, Prod.mk.injEq, List.append_eq_nil] at h
      obtain ⟨ho, ht1, ht2⟩ := h
      subst ho ht2
      rw [unmarshalString_ok ht1] at hr
      simpa [lastOr] using ih (asString v) hr

/-- A successful decode of a document whose struct levels are merge-free
mappings is the field-by-field overlay of the document on the record. -/
theorem unmarshalStruct_overlay (root : Node) (d r : RunConfig)
    (hplain : plainStructure root = true)
    (h : unmarshalStruct runConfigInfo root d = .ok (r, [])) : r = overlay root d := by
  simp only [plainStructure, Bool.and_eq_true] at hplain
  obtain ⟨⟨hroot, hcfg⟩, hns⟩ := hplain
  cases root with
  | scalar value implicit => simp [plainMapping] at hroot
  | sequence cs => simp [plainMapping] at hroot
  | mapping top =>
    simp only [unmarshalStruct] at h
    simp only [plainMapping] at hroot
    have hA : decodeAll (unmarshalStruct configInfo) (configNodes (.mapping top)) d.Config =
        .ok (r.Config, []) := by
      refine decodeAll_of_mappingStruct runConfigInfo "config" (fun c => c.Config)
        (unmarshalStruct configInfo) ?_ ?_ ?_ top d r hroot h
      · have : runConfigInfo.FieldsMap "config" = some _ := rfl
        rw [this]; simp
      · intro fld v out o t hf hu
        obtain ⟨_, rfl⟩ := runConfigInfo_FieldsMap hf
        obtain ⟨x, hx, rfl⟩ := fieldOf_unmarshal_ok hu
        exact hx
      · intro name fld v out o t hne hf hu
        exact absurd (runConfigInfo_FieldsMap hf).1 hne
    have hB : decodeAll (fun n b => .ok (unmarshalBool n b))
        ((configNodes (.mapping top)).flatMap (valuesOf "recursive")) d.Config.Recursive =
        .ok (r.Config.Recursive, []) := by
      refine decodeAll_flatMap configInfo "recursive" (fun c => c.Recursive)
        (fun n b => .ok (unmarshalBool n b)) ?_ ?_ ?_ _ d.Config r.Config hcfg hA
      · have : configInfo.FieldsMap "recursive" = some _ := rfl
        rw [this]; simp
      · intro fld v out o t hf hu
        rcases configInfo_FieldsMap hf with ⟨_, rfl⟩ | ⟨hn, _⟩
        · obtain ⟨x, hx, rfl⟩ := fieldOf_unmarshal_ok hu
          exact hx
        · exact absurd hn (by decide)
      · intro name fld v out o t hne hf hu
        rcases configInfo_FieldsMap hf with ⟨hn, _⟩ | ⟨_, rfl⟩
        · exact absurd hn hne
        · obtain ⟨x, hx, rfl⟩ := fieldOf_unmarshal_ok hu
          rfl
    have hC : decodeAll (unmarshalStruct namespaceConfigInfo) (namespaceNodes (.mapping top))
        d.Config.Namespace = .ok (r.Config.Namespace, []) := by
      refine decodeAll_flatMap configInfo "namespace" (fun c => c.Namespace)
        (unmarshalStruct namespaceConfigInfo) ?_ ?_ ?_ _ d.Config r.Config hcfg hA
      · have : configInfo.FieldsMap "namespace" = some _ := rfl
        rw [this]; simp
      · intro fld v out o t hf hu
        rcases configInfo_FieldsMap hf with ⟨hn, _⟩ | ⟨_, rfl⟩
        · exact absurd hn (by decide)
        · obtain ⟨x, hx, rfl⟩ := fieldOf_unmarshal_ok hu
          exact hx
      · intro name fld v out o t hne hf hu
        rcases configInfo_FieldsMap hf with ⟨_, rfl⟩ | ⟨hn, _⟩
        · obtain ⟨x, hx, rfl⟩ := fieldOf_unmarshal_ok hu
          rfl
        · exact absurd hn hne
    have hD : decodeAll (fun n s => .ok ((unmarshalString n s).1, (unmarshalString n s).2.2))
        ((namespaceNodes (.mapping top)).flatMap (valuesOf "name")) d.Config.Namespace.Name =
        .ok (r.Config.Namespace.Name, []) := by
      refine decodeAll_flatMap namespaceConfigInfo "name" (fun c => c.Name)
        (fun n s => .ok ((unmarshalString n s).1, (unmarshalString n s).2.2)) ?_ ?_ ?_ _
        d.Config.Namespace r.Config.Namespace hns hC
      · have : namespaceConfigInfo.FieldsMap "name" = some _ := rfl
        rw [this]; simp
      · intro fld v out o t hf hu
        rcases namespaceConfigInfo_FieldsMap hf with ⟨_, rfl⟩ | ⟨hn, _⟩ | ⟨hn, _⟩
        · obtain ⟨x, hx, rfl⟩ := fieldOf_unmarshal_ok hu
          exact hx
        · exact absurd hn (by decide)
        · exact absurd hn (by decide)
      · intro name fld v out o t hne hf hu
        rcases namespaceConfigInfo_FieldsMap hf with ⟨hn, _⟩ | ⟨_, rfl⟩ | ⟨_, rfl⟩
        · exact absurd hn hne
        · obtain ⟨x, hx, rfl⟩ := fieldOf_unmarshal_ok hu
          rfl
        · obtain ⟨x, hx, rfl⟩ := fieldOf_unmarshal_ok hu
          rfl
    have hE : decodeAll (fun n b => .ok (unmarshalBool n b))
        ((namespaceNodes (.mapping top)).flatMap (valuesOf "temporary"))
        d.Config.Namespace.Temporary = .ok (r.Config.Namespace.Temporary, []) := by
      refine decodeAll_flatMap namespaceConfigInfo "temporary" (fun c => c.Temporary)
        (fun n b => .ok (unmarshalBool n b)) ?_ ?_ ?_ _
        d.Config.Namespace r.Config.Namespace hns hC
      · have : namespaceConfigInfo.FieldsMap "temporary" = some _ := rfl
        rw [this]; simp
      · intro fld v out o t hf hu
        rcases namespaceConfigInfo_FieldsMap hf with ⟨hn, _⟩ | ⟨_, rfl⟩ | ⟨hn, _⟩
        · exact absurd hn (by decide)
        · obtain ⟨x, hx, rfl⟩ := fieldOf_unmarshal_ok hu
          exact hx
        · exact absurd hn (by decide)
      · intro name fld v out o t hne hf hu
        rcases namespaceConfigInfo_FieldsMap hf with ⟨_, rfl⟩ | ⟨hn, _⟩ | ⟨_, rfl⟩
        · obtain ⟨x, hx, rfl⟩ := fieldOf_unmarshal_ok hu
          rfl
        · exact absurd hn hne
        · obtain ⟨x, hx, rfl⟩ := fieldOf_unmarshal_ok hu
          rfl
    have hF : decodeAll (fun n b => .ok (unmarshalBool n b))
        ((namespaceNodes (.mapping top)).flatMap (valuesOf "autoremove"))
        d.Config.Namespace.AutoRemove = .ok (r.Config.Namespace.AutoRemove, []) := by
      refine decodeAll_flatMap namespaceConfigInfo "autoremove" (fun c => c.AutoRemove)
        (fun n b => .ok (unmarshalBool n b)) ?_ ?_ ?_ _
        d.Config.Namespace r.Config.Namespace hns hC
      · have : namespaceConfigInfo.FieldsMap "autoremove" = some _ := rfl
        rw [this]; simp
      · intro fld v out o t hf hu
        rcases namespaceConfigInfo_FieldsMap hf with ⟨hn, _⟩ | ⟨hn, _⟩ | ⟨_, rfl⟩
        · exact absurd hn (by decide)
        · exact absurd hn (by decide)
        · obtain ⟨x, hx, rfl⟩ := fieldOf_unmarshal_ok hu
          exact hx
      · intro name fld v out o t hne hf hu
        rcases namespaceConfigInfo_FieldsMap hf with ⟨_, rfl⟩ | ⟨_, rfl⟩ | ⟨hn, _⟩
        · obtain ⟨x, hx, rfl⟩ := fieldOf_unmarshal_ok hu
          rfl
        · obtain ⟨x, hx, rfl⟩ := fieldOf_unmarshal_ok hu
          rfl
        · exact absurd hn hne
    have h1 := decodeAll_bool _ _ _ hB
    have h2 := decodeAll_string _ _ _ hD
    have h3 := decodeAll_bool _ _ _ hE
    have h4 := decodeAll_bool _ _ _ hF
    obtain ⟨⟨rec, ⟨nm, tmp, ar⟩⟩⟩ := r
    simp only at h1 h2 h3 h4
    subst h1 h2 h3 h4
    rfl

/-- C6 (counterexample): `null-config.yaml` is parsed and decoded without
error and holds no `recursive` and no `autoremove` key (its overlay on the
default record is the default record), yet `LoadConfig` returns
`Recursive = false` and `AutoRemove = false`: the null value of `config`
resets the whole `Config` to zero values. -/
theorem LoadConfig_null_config_counterexample :
    sampleWorld.ReadFile "null-config.yaml" = (bytesOf nullConfigText, none) ∧
    sampleWorld.parse (bytesOf nullConfigText) = .ok (some nullConfigDoc) ∧
    (configNodes nullConfigDoc).flatMap (valuesOf "recursive") = [] ∧
    (namespaceNodes nullConfigDoc).flatMap (valuesOf "autoremove") = [] ∧
    overlay nullConfigDoc newWithDefaults = ⟨⟨true, ⟨"", false, true⟩⟩⟩ ∧
    LoadConfig sampleWorld "null-config.yaml" = (some ⟨⟨false, ⟨"", false, false⟩⟩⟩, none) := by
  refine ⟨rfl, rfl, rfl, rfl, rfl, rfl⟩

/-- C6 (amended): for every document that is parsed and decoded without error
and in which the document itself, every value of `config` and every value of
`namespace` under it is a mapping without merge keys, each field whose key is
absent has its default value and each field whose key is present has the
document's (last) value for it; and for the document
`config: { recursive: false }` the result has `Recursive = false`,
`Name = ""`, `Temporary = false` and `AutoRemove = true`. -/
theorem LoadConfig_overlay :
    (∀ (w : World) (file : String) (data : List Nat) (root : Node) (r : RunConfig),
      w.ReadFile file = (data, none) → w.parse data = .ok (some root) →
      plainStructure root = true → LoadConfig w file = (some r, none) →
      r = overlay root newWithDefaults) ∧
    (∀ (w : World) (file : String) (data : List Nat),
      w.ReadFile file = (data, none) → w.parse data = .ok (some recursiveOffDoc) →
      LoadConfig w file = (some ⟨⟨false, ⟨"", false, true⟩⟩⟩, none)) := by
  constructor
  · intro w file data root r hread hparse hplain hok
    apply unmarshalStruct_overlay root newWithDefaults r hplain
    simp only [LoadConfig, hread, Unmarshal, hparse] at hok
    cases hu : unmarshalStruct runConfigInfo root newWithDefaults with
    | error e => simp [hu, IsNotExist] at hok
    | ok p =>
      obtain ⟨o, t⟩ := p
      cases t with
      | nil =>
        simp [hu, IsNotExist] at hok
        rw [hok]
      | cons a b => simp [hu, IsNotExist] at hok
  · intro w file data hread hparse
    simp only [LoadConfig, hread, Unmarshal, hparse]
    rfl

/-- Witness of C6 (amended): the file `recursive.yaml` of `sampleWorld`. -/
theorem LoadConfig_overlay_witness :
    sampleWorld.ReadFile "recursive.yaml" = (bytesOf recursiveOffText, none) ∧
    sampleWorld.parse (bytesOf recursiveOffText) = .ok (some recursiveOffDoc) ∧
    plainStructure recursiveOffDoc = true ∧
    LoadConfig sampleWorld "recursive.yaml" = (some ⟨⟨false, ⟨"", false, true⟩⟩⟩, none) ∧
    (⟨⟨false, ⟨"", false, true⟩⟩⟩ : RunConfig) = overlay recursiveOffDoc newWithDefaults :=
  ⟨rfl, rfl, rfl, LoadConfig_overlay.2 sampleWorld "recursive.yaml" _ rfl rfl,
    LoadConfig_overlay.1 sampleWorld "recursive.yaml" _ recursiveOffDoc _ rfl rfl rfl rfl⟩

/-! ### Documents that set nothing the decoder reads -/

/-- A loop all of whose entries have scalar keys other than the merge key and
decode, when the key names a field, without changing the struct, returns the
struct unchanged and no type error. -/
theorem mappingStruct_unchanged {σ : Type} (info : StructInfo σ)
    (children : List (Node × Node)) (out : σ)
    (h : ∀ kv ∈ children, isMerge kv.1 = false ∧ ∃ name, keyName kv.1 = some name ∧
      ∀ fld, info.FieldsMap name = some fld → fld.unmarshal kv.2 out = .ok (out, [])) :
    mappingStruct info children out = .ok (out, []) := by
  induction children with
  | nil => rfl
  | cons kv rest ih =>
    obtain ⟨k, v⟩ := kv
    obtain ⟨hm, name, hk, hfld⟩ := h (k, v) (List.mem_cons_self _ _)
    have hrest := ih (fun kv hkv => h kv (List.mem_cons_of_mem _ hkv))
    cases hf : info.FieldsMap name with
    | none => rw [mappingStruct_cons_unknown info v rest out hm hk hf, hrest]
    | some fld =>
      rw [mappingStruct_cons_field info v rest out hm hk hf, hfld fld hf]
      simp only [hrest, List.append_nil]

/-- A mapping without values for `key` has no entry named `key`. -/
theorem keyName_ne_of_valuesOf_nil (key : String) (children : List (Node × Node))
    (h : valuesOf key (.mapping children) = []) :
    ∀ kv ∈ children, keyName kv.1 ≠ some key := by
  induction children with
  | nil => intro kv hkv; simp at hkv
  | cons kv rest ih =>
    obtain ⟨k, v⟩ := kv
    rw [valuesOf_cons] at h
    by_cases hk : keyName k = some key
    · simp [hk] at h
    · simp only [hk, if_false] at h
      intro kv hkv
      rcases List.mem_cons.mp hkv with rfl | hmem
      · exact hk
      · exact ih h kv hmem

/-- The values of `key` in a mapping are values of its entries named `key`. -/
theorem mem_valuesOf (key : String) (children : List (Node × Node)) (k v : Node)
    (hmem : (k, v) ∈ children) (hk : keyName k = some key) :
    v ∈ valuesOf key (.mapping children) := by
  induction children with
  | nil => simp at hmem
  | cons kv rest ih =>
    obtain ⟨k1, v1⟩ := kv
    rw [valuesOf_cons]
    rcases List.mem_cons.mp hmem with heq | hrest
    · simp only [Prod.mk.injEq] at heq
      obtain ⟨rfl, rfl⟩ := heq
      simp [hk]
    · split
      · exact List.mem_cons_of_mem _ (ih hrest)
      · exact ih hrest

/-- Decoding a `flatConfig` value leaves the `Config` unchanged. -/
theorem unmarshalStruct_flatConfig (c : Node) (out : Config) (h : flatConfig c = true) :
    unmarshalStruct configInfo c out = .ok (out, []) := by
  simp only [flatConfig, Bool.and_eq_true, List.isEmpty_iff] at h
  obtain ⟨⟨hkeys, hrec⟩, hns⟩ := h
  cases c with
  | scalar value implicit => simp [scalarKeys] at hkeys
  | sequence cs => simp [scalarKeys] at hkeys
  | mapping cs =>
    simp only [scalarKeys, List.all_eq_true, Bool.and_eq_true, Bool.not_eq_true',
      Option.isSome_iff_exists] at hkeys
    simp only [unmarshalStruct]
    apply mappingStruct_unchanged
    intro kv hkv
    obtain ⟨hm, name, hk⟩ := hkeys kv hkv
    refine ⟨hm, name, hk, ?_⟩
    intro fld hf
    have h1 := keyName_ne_of_valuesOf_nil _ cs hrec kv hkv
    have h2 := keyName_ne_of_valuesOf_nil _ cs hns kv hkv
    rw [hk] at h1 h2
    rcases configInfo_FieldsMap hf with ⟨hn, _⟩ | ⟨hn, _⟩
    · exact absurd (by rw [hn]; rfl) h1
    · exact absurd (by rw [hn, Config_Namespace_Key]) h2

/-- Decoding a `flatDocument` leaves the record unchanged. -/
theorem unmarshalStruct_flatDocument (root : Node) (out : RunConfig)
    (h : flatDocument root = true) :
    unmarshalStruct runConfigInfo root out = .ok (out, []) := by
  simp only [flatDocument, Bool.and_eq_true, List.all_eq_true] at h
  obtain ⟨hkeys, hcfg⟩ := h
  cases root with
  | scalar value implicit => simp [scalarKeys] at hkeys
  | sequence cs => simp [scalarKeys] at hkeys
  | mapping top =>
    simp only [scalarKeys, List.all_eq_true, Bool.and_eq_true, Bool.not_eq_true',
      Option.isSome_iff_exists] at hkeys
    simp only [unmarshalStruct]
    apply mappingStruct_unchanged
    intro kv hkv
    obtain ⟨hm, name, hk⟩ := hkeys kv hkv
    refine ⟨hm, name, hk, ?_⟩
    intro fld hf
    obtain ⟨hn, rfl⟩ := runConfigInfo_FieldsMap hf
    subst hn
    have hv : kv.2 ∈ configNodes (.mapping top) := mem_valuesOf _ top kv.1 kv.2 hkv hk
    simp only [fieldOf, unmarshalStruct_flatConfig kv.2 out.Config (hcfg kv.2 hv)]

/-- A mapping none of whose entries is named `key` holds no value for `key`. -/
theorem valuesOf_nil_of_keyName_ne (key : String) (children : List (Node × Node))
    (h : ∀ kv ∈ children, keyName kv.1 ≠ some key) :
    valuesOf key (.mapping children) = [] := by
  induction children with
  | nil => rfl
  | cons kv rest ih =>
    obtain ⟨k, v⟩ := kv
    rw [valuesOf_cons]
    have hk : keyName k ≠ some key := h (k, v) (List.mem_cons_self _ _)
    simp only [hk, if_false]
    exact ih (fun kv hkv => h kv (List.mem_cons_of_mem _ hkv))

/-- A document with the single top-level key `config` whose mapping has only
keys named `name`, `temporary` or `autoremove` is a `flatDocument`. -/
theorem flatDocument_of_flat_keys (entries : List (Node × Node))
    (h : ∀ kv ∈ entries, keyName kv.1 = some "name" ∨ keyName kv.1 = some "temporary" ∨
      keyName kv.1 = some "autoremove") :
    flatDocument (.mapping [(plain "config", .mapping entries)]) = true := by
  have hcfg : flatConfig (.mapping entries) = true := by
    simp only [flatConfig, Bool.and_eq_true, List.isEmpty_iff]
    refine ⟨⟨?_, ?_⟩, ?_⟩
    · simp only [scalarKeys, List.all_eq_true, Bool.and_eq_true, Bool.not_eq_true']
      intro kv hkv
      constructor
      · cases hm : isMerge kv.1 with
        | false => rfl
        | true =>
          have hk := keyName_of_isMerge hm
          rcases h kv hkv with h1 | h1 | h1 <;> rw [hk] at h1 <;> exact absurd h1 (by decide)
      · rcases h kv hkv with h1 | h1 | h1 <;> rw [h1] <;> rfl
    · apply valuesOf_nil_of_keyName_ne
      intro kv hkv
      rcases h kv hkv with h1 | h1 | h1 <;> rw [h1] <;> decide
    · apply valuesOf_nil_of_keyName_ne
      intro kv hkv
      rcases h kv hkv with h1 | h1 | h1 <;> rw [h1] <;> decide
  have hnodes : configNodes (.mapping [(plain "config", .mapping entries)]) =
      [.mapping entries] := rfl
  have hkeys : scalarKeys (.mapping [(plain "config", .mapping entries)]) = true := rfl
  simp only [flatDocument, hnodes, hkeys, List.all_cons, hcfg, List.all_nil, Bool.and_self]

/-- C2 (amended): for every document without explicit tags, anchors or aliases
(the documents `Node` describes) whose top level is a mapping with scalar
keys other than the merge key and all of whose `config` values are mappings
with scalar keys other than the merge key that set neither `recursive` nor
`namespace`, `LoadConfig` succeeds and returns the default record; every
document with the single top-level key `config` whose mapping has only keys
named `name`, `temporary` or `autoremove`, in any order and with any values,
is such a document: these keys are not keys of `Config` and are ignored. -/
theorem LoadConfig_flat_ignored :
    (∀ (w : World) (file : String) (data : List Nat) (root : Node),
      w.ReadFile file = (data, none) → w.parse data = .ok (some root) →
      flatDocument root = true →
      LoadConfig w file = (some ⟨⟨true, ⟨"", false, true⟩⟩⟩, none)) ∧
    (∀ entries : List (Node × Node),
      (∀ kv ∈ entries, keyName kv.1 = some "name" ∨ keyName kv.1 = some "temporary" ∨
        keyName kv.1 = some "autoremove") →
      flatDocument (.mapping [(plain "config", .mapping entries)]) = true) := by
  constructor
  · intro w file data root hread hparse hflat
    simp only [LoadConfig, hread, Unmarshal, hparse,
      unmarshalStruct_flatDocument root newWithDefaults hflat]
    rfl
  · exact flatDocument_of_flat_keys

/-- Witness of C2 (amended): the file `flat.yaml` of `sampleWorld`. -/
theorem LoadConfig_flat_ignored_witness :
    sampleWorld.ReadFile "flat.yaml" = (bytesOf flatText, none) ∧
    sampleWorld.parse (bytesOf flatText) =
      .ok (some (flatDoc (quoted "foo") (plain "true") (plain "false"))) ∧
    flatDocument (flatDoc (quoted "foo") (plain "true") (plain "false")) = true ∧
    LoadConfig sampleWorld "flat.yaml" = (some ⟨⟨true, ⟨"", false, true⟩⟩⟩, none) :=
  ⟨rfl, rfl,
    LoadConfig_flat_ignored.2
      [(plain "name", quoted "foo"), (plain "temporary", plain "true"),
        (plain "autoremove", plain "false")]
      (by decide),
    LoadConfig_flat_ignored.1 sampleWorld "flat.yaml" _ _ rfl rfl rfl⟩

end config
